import Mathlib

/-!
Verification of the StrepHit feature-extraction component
(`strephit/classification/feature_extractors.py`) against its
natural-language specification.

The Python code is shallowly embedded: the external TreeTagger adapter is
modelled by taking its outputs (tagged token triples and chunk token lists)
as inputs; Python dicts become association lists with overwrite-or-append
assignment; Python sets become duplicate-free insertion lists; fallible
code (tuple-unpacking errors) returns `Except`.
-/

namespace StrepHit

/-! ## Definitions -/

/-- A tagged token. The tagger produces 3-tuples `(surface, pos, lemma)`;
the aligner may extend a token with a frame-element label, turning it into
a 4-tuple. `fe = none` models a 3-tuple, `fe = some l` a 4-tuple. -/
structure Token where
  surface : String
  pos : String
  lemm : String
  fe : Option String

deriving DecidableEq, Repr

instance : Inhabited Token := ⟨⟨"", "", "", none⟩⟩

/-- A Python dict with string keys and values, as an association list in
insertion order. -/
abbrev Dict := List (String × String)

/-- Python dict lookup `d[k]` / `d.get(k)`. -/
def dget : Dict → String → Option String
  | [], _ => none
  | (k', v) :: d, k => if k' = k then some v else dget d k

/-- Python dict assignment `d[k] = v`: overwrite in place if the key is
present, append otherwise. -/
def dset : Dict → String → String → Dict
  | [], k, v => [(k, v)]
  | (k', v') :: d, k, v => if k' = k then (k, v) :: d else (k', v') :: dset d k v

/-- Python `set.add`, on a duplicate-free list in insertion order. -/
def setAdd (x : String) (l : List String) : List String :=
  if x ∈ l then l else l ++ [x]

/-- Little-endian base-10 digit extraction, with an explicit fuel bound so
the recursion is structural (any `fuel > n` suffices, since `n / 10 < n`). -/
def natDigitsGo : Nat → Nat → List Nat
  | 0, _ => []
  | fuel + 1, n => if n < 10 then [n] else (n % 10) :: natDigitsGo fuel (n / 10)

/-- Little-endian base-10 digits of a natural number (the digits of `0`
are `[0]`, as rendered by `'%d'`). -/
def natDigits (n : Nat) : List Nat := natDigitsGo (n + 1) n

/-- Value of a little-endian digit list. -/
def digitsVal : List Nat → Nat
  | [] => 0
  | d :: ds => d + 10 * digitsVal ds

/-- The ASCII character of a decimal digit. -/
def digitChar (d : Nat) : Char := Char.ofNat (48 + d)

/-- Decimal rendering of a natural number. -/
def natRepr (n : Nat) : String := String.mk ((natDigits n).reverse.map digitChar)

/-- Python `'%+d' % rel`: decimal rendering with an explicit sign. -/
def fmtSigned (r : Int) : String :=
  if r < 0 then "-" ++ natRepr r.natAbs else "+" ++ natRepr r.natAbs

/-- Feature-name synthesis `'<KIND>%+d' % rel` from `process_sentence`. -/
def featName (kind : String) (rel : Int) : String := kind ++ fmtSigned rel

/-- A feature name of the `GAZ<signed-offset>` family. -/
def IsGazKey (k : String) : Prop := k.data.take 3 = ['G', 'A', 'Z']

instance (k : String) : Decidable (IsGazKey k) := by
  unfold IsGazKey; infer_instance

deriving instance DecidableEq for Except

/-- Python `str.lower()`. -/
def lower (s : String) : String := String.mk (s.data.map Char.toLower)

/-- One FE entry of the `fes` dict, in iteration order: the FE name and,
unless the chunk is `None`, the chunk text together with the external
tokenizer's output `self.tagger.tokenize(chunk)` for it. -/
abbrev FEEntry := String × Option (String × List String)

/-- The body of the chunk-matching `while` loop, with the remaining
iteration count `tagged.length - i` made explicit so the recursion is
structural: `rem = 0` is exactly the exit condition `¬ i < len(tagged)`,
since `i` increases by one per iteration. -/
def scanGo (tagged : List Token) (ctoks : List String) : Nat → Nat → Nat → Option Nat
  | 0, _, _ => none
  | rem + 1, i, j =>
    if lower (ctoks.getD j "") = lower (tagged.getD i default).surface then
      if j + 1 = ctoks.length then some i
      else scanGo tagged ctoks rem (i + 1) (j + 1)
    else scanGo tagged ctoks rem (i + 1) 0

/-- The chunk-matching `while` loop of `sentence_to_tokens`: scan `tagged`
for the token sequence `ctoks`, comparing lower-cased surfaces; on a
mismatch the comparison index `j` resets to zero while `i` advances.
Returns the final `i` (the index of the last matched token) when found. -/
def scanLoop (tagged : List Token) (ctoks : List String) (i j : Nat) : Option Nat :=
  scanGo tagged ctoks (tagged.length - i) i j

/-- The split-mode relabeling loop.  `token, pos, _ = tagged[i]` unpacks a
3-tuple; on a token that already carries an FE label (a 4-tuple) the
unpacking raises `ValueError`. -/
def splitRelabel (fe : String) (tagged : List Token) : Nat → Nat → Except String (List Token)
  | _, 0 => .ok tagged
  | p, c + 1 =>
    let t := tagged.getD p default
    match t.fe with
    | some _ => .error "too many values to unpack"
    | none => splitRelabel fe (tagged.set p ⟨t.surface, t.pos, "ENT", some fe⟩) (p + 1) c

/-- Process one non-null FE entry with a non-empty token list: search for
the chunk and, if found, collapse the span to one synthetic token or
relabel the span's tokens in place. -/
def applyFE (collapse : Bool) (tagged : List Token) (fe chunk : String)
    (ctoks : List String) : Except String (List Token) :=
  match scanLoop tagged ctoks 0 0 with
  | none => .ok tagged
  | some i =>
    let position := i + 1 - ctoks.length
    let pos := if ctoks.length > 1 then "ENT" else (tagged.getD position default).pos
    if collapse then
      .ok (tagged.take position ++ [⟨chunk, pos, chunk, some fe⟩]
           ++ tagged.drop (position + ctoks.length))
    else
      splitRelabel fe tagged position ctoks.length

/-- `FeatureExtractor.sentence_to_tokens`, with the external tagger's
output for the sentence (`tagged`) and for each chunk (inside `fes`)
taken as inputs.  Entries with a `None` chunk or an empty tokenization
are skipped. -/
def sentence_to_tokens (collapse : Bool) (tagged : List Token) (fes : List FEEntry) :
    Except String (List Token) :=
  fes.foldlM (fun tg e =>
    match e.2 with
    | none => .ok tg
    | some (chunk, ctoks) =>
      if ctoks.isEmpty then .ok tg
      else applyFE collapse tg e.1 chunk ctoks) tagged

/-- The mutable state of a `FeatureExtractor`: its configuration plus the
accumulator (samples, vocabulary, labels).  Python sets are modelled as
duplicate-free lists in insertion order. -/
structure ExtractorState where
  language : String
  unk_feature : String
  window_width : Nat
  samples : List (Dict × String)
  vocabulary : List String
  labels : List String
  collapse_fes : Bool

deriving DecidableEq, Repr

/-- `FeatureExtractor.__init__` (the tagger handle is external state and
not part of the embedding). -/
def init (language : String) (window_width : Nat := 2) (collapse_fes : Bool := true) :
    ExtractorState :=
  { language := language
    unk_feature := "UNK"
    window_width := window_width
    samples := []
    vocabulary := []
    labels := []
    collapse_fes := collapse_fes }

/-- `FeatureExtractor.start`. -/
def start (st : ExtractorState) : ExtractorState :=
  { st with samples := [], vocabulary := [], labels := [] }

/-- The closure `add_feature_to` in `process_sentence`, acting on the
sample dict and the vocabulary. -/
def add_feature_to (unk : String) (add_unknown : Bool) (sv : Dict × List String)
    (name value : String) : Dict × List String :=
  if add_unknown || value ∈ sv.2 then
    (dset sv.1 name value, setAdd value sv.2)
  else
    (dset sv.1 name unk, sv.2)

/-- The body of the inner window loop for window index `i` at center
`position`: three `add_feature_to` calls and the verbatim gazetteer
writes (`sample['GAZ%+d' % rel] = feat`). -/
def tokenStep (unk : String) (add_unknown : Bool) (gazetteer : List (String × List String))
    (tagged : List Token) (position : Nat) (sv : Dict × List String) (i : Nat) :
    Dict × List String :=
  let rel : Int := (i : Int) - (position : Int)
  let tok := tagged.getD i default
  let sv := add_feature_to unk add_unknown sv (featName "TERM" rel) tok.surface
  let sv := add_feature_to unk add_unknown sv (featName "POS" rel) tok.pos
  let sv := add_feature_to unk add_unknown sv (featName "LEMMA" rel) tok.lemm
  (((gazetteer.lookup tok.surface).getD []).foldl
      (fun s feat => dset s (featName "GAZ" rel) feat) sv.1,
   sv.2)

/-- The window indices `xrange(max(position - w, 0), min(position + w + 1,
len(tagged)))` (`Nat` subtraction is the truncation `max _ 0`). -/
def windowIdxs (w n position : Nat) : List Nat :=
  List.range' (position - w) (min (position + w + 1) n - (position - w))

/-- Build the sample dict for one window position, threading the
vocabulary: starts from `{'unk': self.unk_feature}` and runs the window
loop. -/
def buildSample (unk : String) (add_unknown : Bool) (gazetteer : List (String × List String))
    (tagged : List Token) (w position : Nat) (vocab : List String) : Dict × List String :=
  (windowIdxs w tagged.length position).foldl
    (tokenStep unk add_unknown gazetteer tagged position) ([("unk", unk)], vocab)

/-- The label read after the window loop: `tagged[i]` for the residual
loop variable `i = min(position + w + 1, len(tagged)) - 1`, `'O'` when
that token is a 3-tuple. -/
def labelAt (tagged : List Token) (w position : Nat) : String :=
  (tagged.getD (min (position + w + 1) tagged.length - 1) default).fe.getD "O"

/-- One iteration of the outer position loop of `process_sentence`. -/
def posStep (tagged : List Token) (add_unknown : Bool)
    (gazetteer : List (String × List String)) (st : ExtractorState) (position : Nat) :
    ExtractorState :=
  let sv := buildSample st.unk_feature add_unknown gazetteer tagged st.window_width position
    st.vocabulary
  let label := labelAt tagged st.window_width position
  { st with
    samples := st.samples ++ [(sv.1, label)]
    vocabulary := sv.2
    labels := setAdd label st.labels }

/-- The accumulation phase of `process_sentence`, after alignment. -/
def accumulate (tagged : List Token) (add_unknown : Bool)
    (gazetteer : List (String × List String)) (st : ExtractorState) : ExtractorState :=
  (List.range tagged.length).foldl (posStep tagged add_unknown gazetteer) st

/-- `FeatureExtractor.process_sentence`, with the tagger's output for the
sentence taken as input. -/
def process_sentence (st : ExtractorState) (tagged : List Token) (fes : List FEEntry)
    (add_unknown : Bool) (gazetteer : List (String × List String)) :
    Except String ExtractorState :=
  (sentence_to_tokens st.collapse_fes tagged fes).map
    (fun aligned => accumulate aligned add_unknown gazetteer st)

/-- `FeatureExtractor.get_features`.  `samples, labels = zip(*self.samples)`
raises `ValueError` on an empty accumulator; the external `DictVectorizer`
is out of scope, so the feature rows stay as dicts, while the label vector
is built from the enumeration order of the label set. -/
def get_features (st : ExtractorState) : Except String (List Dict × List Nat) :=
  match st.samples with
  | [] => .error "insufficient data"
  | _ =>
    let label_index := fun l => st.labels.indexOf l
    .ok (st.samples.map Prod.fst, st.samples.map (fun s => label_index s.2))

/-- The samples appended by the position loop for the given list of
positions, threading the vocabulary exactly as `process_sentence` does. -/
def emitted (add_unknown : Bool) (gazetteer : List (String × List String))
    (tagged : List Token) (unk : String) (w : Nat) :
    List Nat → List String → List (Dict × String)
  | [], _ => []
  | p :: ps, vocab =>
    let sv := buildSample unk add_unknown gazetteer tagged w p vocab
    (sv.1, labelAt tagged w p) :: emitted add_unknown gazetteer tagged unk w ps sv.2

/-- All feature values of a sample dict outside the `GAZ` family are
vocabulary members or the unknown sentinel. -/
def SampleOK (vocab : List String) (unk : String) (d : Dict) : Prop :=
  ∀ kv ∈ d, ¬ IsGazKey kv.1 → kv.2 ∈ vocab ∨ kv.2 = unk

/-- `FeatureExtractor.__getstate__`. -/
def getstate (st : ExtractorState) :
    String × String × Nat × List (Dict × String) × List String × List String × Bool :=
  (st.language, st.unk_feature, st.window_width, st.samples, st.vocabulary, st.labels,
   st.collapse_fes)

/-- `FeatureExtractor.__setstate__`: `__init__(language, window_width)`
followed by field assignments. -/
def setstate :
    String × String × Nat × List (Dict × String) × List String × List String × Bool →
    ExtractorState
  | (language, unk_feature, window_width, samples, vocabulary, labels, collapse_fes) =>
    let st := init language window_width
    { st with
      samples := samples
      vocabulary := vocabulary
      unk_feature := unk_feature
      collapse_fes := collapse_fes
      labels := labels }

/-- The chunk's tokens occur contiguously (case-insensitively) in the
sentence token sequence starting at `s`. -/
def chunkOccursAt (tagged : List Token) (ctoks : List String) (s : Nat) : Prop :=
  s + ctoks.length ≤ tagged.length ∧
  ∀ k < ctoks.length, lower (ctoks.getD k "") = lower ((tagged.getD (s + k) default).surface)

instance (tagged : List Token) (ctoks : List String) (s : Nat) :
    Decidable (chunkOccursAt tagged ctoks s) := by
  unfold chunkOccursAt; infer_instance

/-- The chunk's first token recurs strictly inside a partially-matched
span: some prefix of the chunk of length `m ≥ 2` matches at `s`, and the
first chunk token occurs again at a position `t` with `s < t < s + m`. -/
def PartialMatchRecurs (tagged : List Token) (ctoks : List String) : Prop :=
  ∃ s < tagged.length, ∃ m < ctoks.length + 1, 2 ≤ m ∧
    (s + m ≤ tagged.length ∧
      ∀ k < m, lower (ctoks.getD k "") = lower ((tagged.getD (s + k) default).surface)) ∧
    ∃ t < s + m, s < t ∧ lower ((tagged.getD t default).surface) = lower (ctoks.getD 0 "")

instance (tagged : List Token) (ctoks : List String) :
    Decidable (PartialMatchRecurs tagged ctoks) := by
  unfold PartialMatchRecurs; infer_instance

/-! ## Lemmas and claim theorems -/

theorem dget_dset_same (d : Dict) (k v : String) : dget (dset d k v) k = some v := by
  induction d with
  | nil => simp [dset, dget]
  | cons p d ih =>
    obtain ⟨k', v'⟩ := p
    by_cases h : k' = k <;> simp [dset, dget, h, ih]

theorem dget_dset_other (d : Dict) (k v k' : String) (h : k' ≠ k) :
    dget (dset d k v) k' = dget d k' := by
  induction d with
  | nil => simp [dset, dget, Ne.symm h]
  | cons p d ih =>
    obtain ⟨k₀, v₀⟩ := p
    by_cases h₀ : k₀ = k
    · subst h₀
      simp [dset, dget, Ne.symm h]
    · simp [dset, dget, h₀, ih]

theorem mem_dset (d : Dict) (k v : String) (x : String × String) (hx : x ∈ dset d k v) :
    x ∈ d ∨ x = (k, v) := by
  induction d with
  | nil => simpa [dset] using hx
  | cons p d ih =>
    obtain ⟨k₀, v₀⟩ := p
    by_cases h₀ : k₀ = k
    · simp [dset, h₀] at hx
      rcases hx with h | h
      · right; simpa using h
      · left; simp [h]
    · simp [dset, h₀] at hx
      rcases hx with h | h
      · left; simp [h]
      · rcases ih h with h' | h'
        · left; simp [h']
        · right; exact h'

theorem digitsVal_natDigitsGo : ∀ (fuel n : Nat), n < fuel →
    digitsVal (natDigitsGo fuel n) = n
  | 0, _, h => absurd h (by omega)
  | fuel + 1, n, h => by
    by_cases h10 : n < 10
    · simp [natDigitsGo, h10, digitsVal]
    · have hdiv : n / 10 < fuel :=
        Nat.lt_of_lt_of_le (Nat.div_lt_self (by omega) (by omega)) (by omega)
      simp only [natDigitsGo, h10, if_false, digitsVal]
      rw [digitsVal_natDigitsGo fuel (n / 10) hdiv]
      omega

theorem digitsVal_natDigits (n : Nat) : digitsVal (natDigits n) = n :=
  digitsVal_natDigitsGo (n + 1) n (Nat.lt_succ_self n)

theorem natDigits_injective {m n : Nat} (h : natDigits m = natDigits n) : m = n := by
  have := digitsVal_natDigits m
  rw [h, digitsVal_natDigits] at this
  omega

theorem natDigitsGo_lt : ∀ (fuel n : Nat), ∀ d ∈ natDigitsGo fuel n, d < 10
  | 0, _ => by simp [natDigitsGo]
  | fuel + 1, n => by
    by_cases h10 : n < 10
    · simp only [natDigitsGo, h10, if_true, List.mem_singleton]
      rintro d rfl
      exact h10
    · simp only [natDigitsGo, h10, if_false, List.mem_cons]
      rintro d (rfl | hd)
      · omega
      · exact natDigitsGo_lt fuel (n / 10) d hd

theorem natDigits_lt (n : Nat) : ∀ d ∈ natDigits n, d < 10 :=
  natDigitsGo_lt (n + 1) n

theorem digitChar_injOn {d₁ d₂ : Nat} (h₁ : d₁ < 10) (h₂ : d₂ < 10)
    (h : digitChar d₁ = digitChar d₂) : d₁ = d₂ := by
  revert h
  interval_cases d₁ <;> interval_cases d₂ <;> simp [digitChar]

theorem map_digitChar_inj : ∀ (l₁ l₂ : List Nat), (∀ d ∈ l₁, d < 10) → (∀ d ∈ l₂, d < 10) →
    l₁.map digitChar = l₂.map digitChar → l₁ = l₂
  | [], [], _, _, _ => rfl
  | [], _ :: _, _, _, h => by simp at h
  | _ :: _, [], _, _, h => by simp at h
  | d₁ :: l₁, d₂ :: l₂, hb₁, hb₂, h => by
    simp only [List.map_cons, List.cons.injEq] at h
    have hd := digitChar_injOn (hb₁ d₁ (by simp)) (hb₂ d₂ (by simp)) h.1
    have hl := map_digitChar_inj l₁ l₂ (fun d hd => hb₁ d (by simp [hd]))
      (fun d hd => hb₂ d (by simp [hd])) h.2
    rw [hd, hl]

theorem natRepr_injective {m n : Nat} (h : natRepr m = natRepr n) : m = n := by
  apply natDigits_injective
  have hdata : (natDigits m).reverse.map digitChar = (natDigits n).reverse.map digitChar := by
    simpa [natRepr] using congrArg String.data h
  have hrev : (natDigits m).reverse = (natDigits n).reverse :=
    map_digitChar_inj _ _ (fun d hd => natDigits_lt m d (List.mem_reverse.mp hd))
      (fun d hd => natDigits_lt n d (List.mem_reverse.mp hd)) hdata
  simpa using congrArg List.reverse hrev

theorem string_data_inj {s t : String} (h : s.data = t.data) : s = t := by
  cases s; cases t; exact congrArg String.mk h

theorem string_append_left_cancel {s a b : String} (h : s ++ a = s ++ b) : a = b := by
  have hd := congrArg String.data h
  simp only [String.data_append] at hd
  exact string_data_inj (List.append_cancel_left hd)

theorem fmtSigned_injective {r₁ r₂ : Int} (h : fmtSigned r₁ = fmtSigned r₂) : r₁ = r₂ := by
  unfold fmtSigned at h
  by_cases h₁ : r₁ < 0 <;> by_cases h₂ : r₂ < 0 <;> simp only [h₁, h₂, if_true, if_false] at h
  · have := natRepr_injective (string_append_left_cancel h)
    omega
  · have hd := congrArg String.data h
    simp only [String.data_append] at hd
    simp at hd
  · have hd := congrArg String.data h
    simp only [String.data_append] at hd
    simp at hd
  · have := natRepr_injective (string_append_left_cancel h)
    omega

theorem featName_inj_rel {kind : String} {r₁ r₂ : Int}
    (h : featName kind r₁ = featName kind r₂) : r₁ = r₂ :=
  fmtSigned_injective (string_append_left_cancel h)

theorem data_featName (kind : String) (r : Int) :
    (featName kind r).data = kind.data ++ (fmtSigned r).data := by
  simp [featName]

theorem term_ne_unk (r : Int) : featName "TERM" r ≠ "unk" := by
  intro h
  have hd := congrArg String.data h
  rw [data_featName] at hd
  simp at hd

theorem pos_ne_unk (r : Int) : featName "POS" r ≠ "unk" := by
  intro h
  have hd := congrArg String.data h
  rw [data_featName] at hd
  simp at hd

theorem lemma_ne_unk (r : Int) : featName "LEMMA" r ≠ "unk" := by
  intro h
  have hd := congrArg String.data h
  rw [data_featName] at hd
  simp at hd

theorem gaz_ne_unk (r : Int) : featName "GAZ" r ≠ "unk" := by
  intro h
  have hd := congrArg String.data h
  rw [data_featName] at hd
  simp at hd

theorem gaz_ne_term (r r' : Int) : featName "GAZ" r ≠ featName "TERM" r' := by
  intro h
  have hd := congrArg String.data h
  rw [data_featName, data_featName] at hd
  simp at hd

theorem gaz_ne_pos (r r' : Int) : featName "GAZ" r ≠ featName "POS" r' := by
  intro h
  have hd := congrArg String.data h
  rw [data_featName, data_featName] at hd
  simp at hd

theorem gaz_ne_lemma (r r' : Int) : featName "GAZ" r ≠ featName "LEMMA" r' := by
  intro h
  have hd := congrArg String.data h
  rw [data_featName, data_featName] at hd
  simp at hd

theorem isGazKey_gaz (r : Int) : IsGazKey (featName "GAZ" r) := by
  unfold IsGazKey
  rw [data_featName]
  rfl

theorem not_isGazKey_term (r : Int) : ¬ IsGazKey (featName "TERM" r) := by
  unfold IsGazKey
  rw [data_featName]
  simp

theorem not_isGazKey_pos (r : Int) : ¬ IsGazKey (featName "POS" r) := by
  unfold IsGazKey
  rw [data_featName]
  simp

theorem not_isGazKey_lemma (r : Int) : ¬ IsGazKey (featName "LEMMA" r) := by
  unfold IsGazKey
  rw [data_featName]
  simp

theorem not_isGazKey_unk : ¬ IsGazKey "unk" := by
  unfold IsGazKey
  simp

theorem posStep_unk (tagged : List Token) (au : Bool) (gaz : List (String × List String))
    (st : ExtractorState) (p : Nat) :
    (posStep tagged au gaz st p).unk_feature = st.unk_feature := rfl

theorem posStep_width (tagged : List Token) (au : Bool) (gaz : List (String × List String))
    (st : ExtractorState) (p : Nat) :
    (posStep tagged au gaz st p).window_width = st.window_width := rfl

theorem foldl_posStep_samples (tagged : List Token) (au : Bool)
    (gaz : List (String × List String)) :
    ∀ (l : List Nat) (st : ExtractorState),
      (l.foldl (posStep tagged au gaz) st).samples =
        st.samples ++ emitted au gaz tagged st.unk_feature st.window_width l st.vocabulary
  | [], st => by simp [emitted]
  | p :: l, st => by
    rw [List.foldl_cons, foldl_posStep_samples tagged au gaz l (posStep tagged au gaz st p)]
    simp [posStep, emitted]

theorem accumulate_samples (tagged : List Token) (au : Bool)
    (gaz : List (String × List String)) (st : ExtractorState) :
    (accumulate tagged au gaz st).samples =
      st.samples ++ emitted au gaz tagged st.unk_feature st.window_width
        (List.range tagged.length) st.vocabulary :=
  foldl_posStep_samples tagged au gaz (List.range tagged.length) st

theorem emitted_map_snd (au : Bool) (gaz : List (String × List String))
    (tagged : List Token) (unk : String) (w : Nat) :
    ∀ (ps : List Nat) (vocab : List String),
      (emitted au gaz tagged unk w ps vocab).map Prod.snd = ps.map (labelAt tagged w)
  | [], _ => rfl
  | p :: ps, vocab => by
    simp only [emitted, List.map_cons, List.cons.injEq, true_and]
    exact emitted_map_snd au gaz tagged unk w ps _

theorem emitted_mem (au : Bool) (gaz : List (String × List String))
    (tagged : List Token) (unk : String) (w : Nat) :
    ∀ (ps : List Nat) (vocab : List String),
      ∀ x ∈ emitted au gaz tagged unk w ps vocab,
        ∃ p v, p ∈ ps ∧
          x = ((buildSample unk au gaz tagged w p v).1, labelAt tagged w p)
  | [], _, x, hx => by simp [emitted] at hx
  | p :: ps, vocab, x, hx => by
    simp only [emitted, List.mem_cons] at hx
    rcases hx with rfl | hx
    · exact ⟨p, vocab, by simp⟩
    · obtain ⟨q, v, hq, hxq⟩ := emitted_mem au gaz tagged unk w ps _ x hx
      exact ⟨q, v, by simp [hq], hxq⟩

/-- `dget` at a key distinct from the written key is unchanged by a fold
of `dset` writes to that key (the gazetteer loop). -/
theorem dget_foldl_dset_other (k k' : String) (h : k' ≠ k) :
    ∀ (l : List String) (s : Dict),
      dget ((l.foldl (fun s v => dset s k v) s)) k' = dget s k'
  | [], _ => rfl
  | v :: l, s => by
    rw [List.foldl_cons, dget_foldl_dset_other k k' h l (dset s k v),
      dget_dset_other s k v k' h]

/-- The gazetteer loop writes every listed value in order, so the last
value wins. -/
theorem dget_foldl_dset_last (k : String) :
    ∀ (l : List String) (hl : l ≠ []) (s : Dict),
      dget ((l.foldl (fun s v => dset s k v) s)) k = some (l.getLast hl)
  | [], hl, _ => absurd rfl hl
  | v :: l, _, s => by
    match l, v with
    | [], v => simpa [List.foldl_cons] using dget_dset_same s k v
    | v' :: l', v =>
      rw [List.foldl_cons, dget_foldl_dset_last k (v' :: l') (by simp) (dset s k v)]
      simp [List.getLast]

theorem dget_add_feature_to_other (unk : String) (au : Bool) (sv : Dict × List String)
    (name value k' : String) (h : k' ≠ name) :
    dget (add_feature_to unk au sv name value).1 k' = dget sv.1 k' := by
  unfold add_feature_to
  split <;> simp [dget_dset_other _ _ _ _ h]

theorem add_feature_to_snd_congr (unk : String) (au : Bool) (sv sv' : Dict × List String)
    (name name' value : String) (h : sv.2 = sv'.2) :
    (add_feature_to unk au sv name value).2 = (add_feature_to unk au sv' name' value).2 := by
  unfold add_feature_to
  rw [h]
  split <;> simp [h]

theorem setAdd_mem {x : String} {l : List String} (h : x ∈ l) : setAdd x l = l := by
  simp [setAdd, h]

theorem dget_tokenStep_unk (unk : String) (au : Bool) (gaz : List (String × List String))
    (tagged : List Token) (p : Nat) (sv : Dict × List String) (i : Nat) :
    dget (tokenStep unk au gaz tagged p sv i).1 "unk" = dget sv.1 "unk" := by
  unfold tokenStep
  rw [dget_foldl_dset_other _ _ (Ne.symm (gaz_ne_unk _)),
    dget_add_feature_to_other _ _ _ _ _ _ (Ne.symm (lemma_ne_unk _)),
    dget_add_feature_to_other _ _ _ _ _ _ (Ne.symm (pos_ne_unk _)),
    dget_add_feature_to_other _ _ _ _ _ _ (Ne.symm (term_ne_unk _))]

theorem dget_foldl_tokenStep_unk (unk : String) (au : Bool)
    (gaz : List (String × List String)) (tagged : List Token) (p : Nat) :
    ∀ (l : List Nat) (sv : Dict × List String),
      dget ((l.foldl (tokenStep unk au gaz tagged p) sv).1) "unk" = dget sv.1 "unk"
  | [], _ => rfl
  | i :: l, sv => by
    rw [List.foldl_cons, dget_foldl_tokenStep_unk unk au gaz tagged p l _,
      dget_tokenStep_unk]

theorem dget_buildSample_unk (unk : String) (au : Bool)
    (gaz : List (String × List String)) (tagged : List Token) (w p : Nat)
    (vocab : List String) :
    dget (buildSample unk au gaz tagged w p vocab).1 "unk" = some unk := by
  unfold buildSample
  rw [dget_foldl_tokenStep_unk]
  simp [dget]

theorem add_feature_to_false_snd (unk : String) (sv : Dict × List String)
    (name value : String) : (add_feature_to unk false sv name value).2 = sv.2 := by
  by_cases h : value ∈ sv.2 <;> simp [add_feature_to, h, setAdd_mem]

theorem tokenStep_false_snd (unk : String) (gaz : List (String × List String))
    (tagged : List Token) (p : Nat) (sv : Dict × List String) (i : Nat) :
    (tokenStep unk false gaz tagged p sv i).2 = sv.2 := by
  unfold tokenStep
  rw [add_feature_to_false_snd, add_feature_to_false_snd, add_feature_to_false_snd]

theorem foldl_tokenStep_false_snd (unk : String) (gaz : List (String × List String))
    (tagged : List Token) (p : Nat) :
    ∀ (l : List Nat) (sv : Dict × List String),
      (l.foldl (tokenStep unk false gaz tagged p) sv).2 = sv.2
  | [], _ => rfl
  | i :: l, sv => by
    rw [List.foldl_cons, foldl_tokenStep_false_snd unk gaz tagged p l _,
      tokenStep_false_snd]

theorem buildSample_false_snd (unk : String) (gaz : List (String × List String))
    (tagged : List Token) (w p : Nat) (vocab : List String) :
    (buildSample unk false gaz tagged w p vocab).2 = vocab := by
  unfold buildSample
  rw [foldl_tokenStep_false_snd]

theorem sampleOK_gazfold (vocab : List String) (unk : String) (r : Int) :
    ∀ (l : List String) (d : Dict), SampleOK vocab unk d →
      SampleOK vocab unk (l.foldl (fun s v => dset s (featName "GAZ" r) v) d)
  | [], _, h => h
  | v :: l, d, h => by
    rw [List.foldl_cons]
    apply sampleOK_gazfold vocab unk r l
    intro kv hkv hgaz
    rcases mem_dset _ _ _ _ hkv with hmem | rfl
    · exact h kv hmem hgaz
    · exact absurd (isGazKey_gaz r) hgaz

theorem add_feature_to_false_ok (vocab : List String) (unk : String)
    (sv : Dict × List String) (name value : String) (hsv : sv.2 = vocab)
    (h : SampleOK vocab unk sv.1) :
    (add_feature_to unk false sv name value).2 = vocab ∧
      SampleOK vocab unk (add_feature_to unk false sv name value).1 := by
  subst hsv
  refine ⟨add_feature_to_false_snd _ _ _ _, ?_⟩
  unfold add_feature_to
  split
  next hcond =>
    intro kv hkv hgaz
    rcases mem_dset _ _ _ _ hkv with hmem | rfl
    · exact h kv hmem hgaz
    · left
      simpa using hcond
  next hcond =>
    intro kv hkv hgaz
    rcases mem_dset _ _ _ _ hkv with hmem | rfl
    · exact h kv hmem hgaz
    · exact Or.inr rfl

theorem tokenStep_false_sampleOK (vocab : List String) (unk : String)
    (gaz : List (String × List String)) (tagged : List Token) (p : Nat)
    (sv : Dict × List String) (i : Nat) (hsv : sv.2 = vocab)
    (h : SampleOK vocab unk sv.1) :
    SampleOK vocab unk (tokenStep unk false gaz tagged p sv i).1 := by
  obtain ⟨h₁v, h₁s⟩ := add_feature_to_false_ok vocab unk sv
    (featName "TERM" ((i : Int) - (p : Int))) (tagged.getD i default).surface hsv h
  obtain ⟨h₂v, h₂s⟩ := add_feature_to_false_ok vocab unk _
    (featName "POS" ((i : Int) - (p : Int))) (tagged.getD i default).pos h₁v h₁s
  obtain ⟨h₃v, h₃s⟩ := add_feature_to_false_ok vocab unk _
    (featName "LEMMA" ((i : Int) - (p : Int))) (tagged.getD i default).lemm h₂v h₂s
  exact sampleOK_gazfold vocab unk _ _ _ h₃s

theorem foldl_tokenStep_false_sampleOK (unk : String) (gaz : List (String × List String))
    (tagged : List Token) (p : Nat) (vocab : List String) :
    ∀ (l : List Nat) (sv : Dict × List String), sv.2 = vocab →
      SampleOK vocab unk sv.1 →
      SampleOK vocab unk ((l.foldl (tokenStep unk false gaz tagged p) sv).1)
  | [], _, _, h => h
  | i :: l, sv, hv, h => by
    rw [List.foldl_cons]
    exact foldl_tokenStep_false_sampleOK unk gaz tagged p vocab l _
      (by rw [tokenStep_false_snd, hv])
      (tokenStep_false_sampleOK vocab unk gaz tagged p sv i hv h)

theorem buildSample_false_sampleOK (unk : String) (gaz : List (String × List String))
    (tagged : List Token) (w p : Nat) (vocab : List String) :
    SampleOK vocab unk (buildSample unk false gaz tagged w p vocab).1 := by
  unfold buildSample
  apply foldl_tokenStep_false_sampleOK unk gaz tagged p vocab _ _ rfl
  intro kv hkv _
  simp only [List.mem_singleton] at hkv
  subst hkv
  exact Or.inr rfl

theorem tokenStep_snd_congr (unk : String) (au : Bool)
    (g₁ g₂ : List (String × List String)) (tagged : List Token) (p : Nat)
    (sv sv' : Dict × List String) (i : Nat) (h : sv.2 = sv'.2) :
    (tokenStep unk au g₁ tagged p sv i).2 = (tokenStep unk au g₂ tagged p sv' i).2 := by
  unfold tokenStep
  apply add_feature_to_snd_congr
  apply add_feature_to_snd_congr
  exact add_feature_to_snd_congr _ _ _ _ _ _ _ h

theorem foldl_tokenStep_snd_congr (unk : String) (au : Bool)
    (g₁ g₂ : List (String × List String)) (tagged : List Token) (p : Nat) :
    ∀ (l : List Nat) (sv sv' : Dict × List String), sv.2 = sv'.2 →
      (l.foldl (tokenStep unk au g₁ tagged p) sv).2 =
        (l.foldl (tokenStep unk au g₂ tagged p) sv').2
  | [], _, _, h => h
  | i :: l, sv, sv', h => by
    rw [List.foldl_cons, List.foldl_cons]
    exact foldl_tokenStep_snd_congr unk au g₁ g₂ tagged p l _ _
      (tokenStep_snd_congr unk au g₁ g₂ tagged p sv sv' i h)

theorem buildSample_snd_congr (unk : String) (au : Bool)
    (g₁ g₂ : List (String × List String)) (tagged : List Token) (w p : Nat)
    (vocab : List String) :
    (buildSample unk au g₁ tagged w p vocab).2 = (buildSample unk au g₂ tagged w p vocab).2 :=
  foldl_tokenStep_snd_congr unk au g₁ g₂ tagged p _ _ _ rfl

theorem accumulate_vocab_congr (tagged : List Token) (au : Bool)
    (g₁ g₂ : List (String × List String)) :
    ∀ (l : List Nat) (st₁ st₂ : ExtractorState), st₁.vocabulary = st₂.vocabulary →
      st₁.unk_feature = st₂.unk_feature → st₁.window_width = st₂.window_width →
      (l.foldl (posStep tagged au g₁) st₁).vocabulary =
        (l.foldl (posStep tagged au g₂) st₂).vocabulary
  | [], _, _, hv, _, _ => hv
  | p :: l, st₁, st₂, hv, hu, hw => by
    rw [List.foldl_cons, List.foldl_cons]
    apply accumulate_vocab_congr tagged au g₁ g₂ l _ _ _
      (by simp [posStep, hu]) (by simp [posStep, hw])
    show (buildSample st₁.unk_feature au g₁ tagged st₁.window_width p st₁.vocabulary).2 =
      (buildSample st₂.unk_feature au g₂ tagged st₂.window_width p st₂.vocabulary).2
    rw [hu, hw, hv]
    exact buildSample_snd_congr _ _ _ _ _ _ _ _

theorem gazKey_ne_gazKey {i i' p : Nat} (h : i' ≠ i) :
    featName "GAZ" ((i : Int) - (p : Int)) ≠ featName "GAZ" ((i' : Int) - (p : Int)) := by
  intro he
  have := featName_inj_rel he
  omega

theorem dget_tokenStep_gaz_other (unk : String) (au : Bool)
    (gaz : List (String × List String)) (tagged : List Token) (p : Nat)
    (sv : Dict × List String) (i i' : Nat) (h : i' ≠ i) :
    dget (tokenStep unk au gaz tagged p sv i').1 (featName "GAZ" ((i : Int) - (p : Int))) =
      dget sv.1 (featName "GAZ" ((i : Int) - (p : Int))) := by
  unfold tokenStep
  rw [dget_foldl_dset_other _ _ (gazKey_ne_gazKey h),
    dget_add_feature_to_other _ _ _ _ _ _ (gaz_ne_lemma _ _),
    dget_add_feature_to_other _ _ _ _ _ _ (gaz_ne_pos _ _),
    dget_add_feature_to_other _ _ _ _ _ _ (gaz_ne_term _ _)]

theorem dget_tokenStep_gaz_self (unk : String) (au : Bool)
    (gaz : List (String × List String)) (tagged : List Token) (p : Nat)
    (sv : Dict × List String) (i : Nat) (fl : List String) (hl : fl ≠ [])
    (hg : gaz.lookup (tagged.getD i default).surface = some fl) :
    dget (tokenStep unk au gaz tagged p sv i).1 (featName "GAZ" ((i : Int) - (p : Int))) =
      some (fl.getLast hl) := by
  unfold tokenStep
  dsimp only
  rw [hg]
  exact dget_foldl_dset_last _ fl hl _

theorem dget_foldl_tokenStep_gaz_other (unk : String) (au : Bool)
    (gaz : List (String × List String)) (tagged : List Token) (p i : Nat) :
    ∀ (l : List Nat) (sv : Dict × List String), (∀ i' ∈ l, i' ≠ i) →
      dget ((l.foldl (tokenStep unk au gaz tagged p) sv).1)
          (featName "GAZ" ((i : Int) - (p : Int))) =
        dget sv.1 (featName "GAZ" ((i : Int) - (p : Int)))
  | [], _, _ => rfl
  | i' :: l, sv, hne => by
    rw [List.foldl_cons,
      dget_foldl_tokenStep_gaz_other unk au gaz tagged p i l _
        (fun x hx => hne x (by simp [hx])),
      dget_tokenStep_gaz_other unk au gaz tagged p sv i i' (hne i' (by simp))]

theorem dget_foldl_tokenStep_gaz (unk : String) (au : Bool)
    (gaz : List (String × List String)) (tagged : List Token) (p i : Nat)
    (fl : List String) (hl : fl ≠ [])
    (hg : gaz.lookup (tagged.getD i default).surface = some fl) :
    ∀ (c lo : Nat) (sv : Dict × List String), i ∈ List.range' lo c →
      dget (((List.range' lo c).foldl (tokenStep unk au gaz tagged p) sv).1)
          (featName "GAZ" ((i : Int) - (p : Int))) = some (fl.getLast hl)
  | 0, lo, _, hi => by simp at hi
  | c + 1, lo, sv, hi => by
    rw [List.range'_succ]
    by_cases hlo : i = lo
    · subst hlo
      rw [List.foldl_cons,
        dget_foldl_tokenStep_gaz_other unk au gaz tagged p i _ _
          (by
            intro x hx
            rw [List.mem_range'] at hx
            obtain ⟨j, _, rfl⟩ := hx
            omega),
        dget_tokenStep_gaz_self unk au gaz tagged p sv i fl hl hg]
    · have hi' : i ∈ List.range' (lo + 1) c := by
        rw [List.range'_succ] at hi
        simpa [hlo] using hi
      rw [List.foldl_cons]
      exact dget_foldl_tokenStep_gaz unk au gaz tagged p i fl hl hg c (lo + 1) _ hi'

/-- In every built sample, a window token whose surface is a gazetteer key
with a non-empty feature list yields a `GAZ` feature at its offset holding
the key's last listed value verbatim. -/
theorem dget_buildSample_gaz (unk : String) (au : Bool)
    (gaz : List (String × List String)) (tagged : List Token) (w p : Nat)
    (vocab : List String) (i : Nat) (fl : List String) (hl : fl ≠ [])
    (hi : i ∈ windowIdxs w tagged.length p)
    (hg : gaz.lookup (tagged.getD i default).surface = some fl) :
    dget (buildSample unk au gaz tagged w p vocab).1
        (featName "GAZ" ((i : Int) - (p : Int))) = some (fl.getLast hl) := by
  unfold buildSample
  unfold windowIdxs at hi ⊢
  exact dget_foldl_tokenStep_gaz unk au gaz tagged p i fl hl hg _ _ _ hi

theorem splitRelabel_error (fe : String) :
    ∀ (count p : Nat) (tagged : List Token),
      (∃ k, p ≤ k ∧ k < p + count ∧ ((tagged.getD k default).fe).isSome) →
      ∃ e, splitRelabel fe tagged p count = .error e
  | 0, p, _, h => by
    obtain ⟨k, h1, h2, _⟩ := h
    omega
  | c + 1, p, tagged, h => by
    obtain ⟨k, h1, h2, h3⟩ := h
    cases hfe : (tagged.getD p default).fe with
    | some l =>
      exact ⟨"too many values to unpack", by unfold splitRelabel; dsimp only; rw [hfe]⟩
    | none =>
      have hkp : k ≠ p := by
        intro he
        rw [he, hfe] at h3
        simp at h3
      obtain ⟨e, he⟩ := splitRelabel_error fe c (p + 1)
        (tagged.set p ⟨(tagged.getD p default).surface, (tagged.getD p default).pos,
          "ENT", some fe⟩)
        ⟨k, by omega, by omega, by
          simp only [List.getD_eq_getElem?_getD, List.getElem?_set_ne (Ne.symm hkp)]
          simpa [List.getD_eq_getElem?_getD] using h3⟩
      exact ⟨e, by unfold splitRelabel; dsimp only; rw [hfe]; exact he⟩

theorem sentence_to_tokens_null (collapse : Bool) :
    ∀ (fes : List FEEntry) (tagged : List Token),
      (∀ e ∈ fes, e.2.elim True (fun ce => ce.2 = [])) →
      sentence_to_tokens collapse tagged fes = .ok tagged
  | [], _, _ => rfl
  | e :: fes, tagged, h => by
    have he := h e (by simp)
    have ih := sentence_to_tokens_null collapse fes tagged (fun x hx => h x (by simp [hx]))
    unfold sentence_to_tokens at ih ⊢
    rw [List.foldlM_cons]
    cases he2 : e.2 with
    | none => simpa [he2] using ih
    | some ce =>
      obtain ⟨c, toks⟩ := ce
      rw [he2] at he
      simp only [Option.elim] at he
      subst he
      simpa [he2] using ih

theorem foldl_posStep_false_vocab (tagged : List Token)
    (gaz : List (String × List String)) :
    ∀ (l : List Nat) (st : ExtractorState),
      (l.foldl (posStep tagged false gaz) st).vocabulary = st.vocabulary
  | [], _ => rfl
  | p :: l, st => by
    rw [List.foldl_cons, foldl_posStep_false_vocab tagged gaz l _]
    exact buildSample_false_snd _ _ _ _ _ _

theorem emitted_false_mem (gaz : List (String × List String)) (tagged : List Token)
    (unk : String) (w : Nat) :
    ∀ (ps : List Nat) (vocab : List String),
      ∀ x ∈ emitted false gaz tagged unk w ps vocab,
        ∃ p, p ∈ ps ∧ x = ((buildSample unk false gaz tagged w p vocab).1, labelAt tagged w p)
  | [], _, x, hx => by simp [emitted] at hx
  | p :: ps, vocab, x, hx => by
    simp only [emitted, List.mem_cons] at hx
    rcases hx with rfl | hx
    · exact ⟨p, by simp⟩
    · rw [buildSample_false_snd] at hx
      obtain ⟨q, hq, hxq⟩ := emitted_false_mem gaz tagged unk w ps vocab x hx
      exact ⟨q, by simp [hq], hxq⟩

/-- C1: for every processed sentence, the label of the sample built at
position `p` is taken from the token at the last window position visited
in the offset loop — index `min(p + window_width, len(tokens) - 1)` — as
that token's fe label, or the outside label `'O'` when it has none. -/
theorem claim_C1 (st : ExtractorState) (tagged : List Token) (au : Bool)
    (gaz : List (String × List String)) (p : Nat) (hp : p < tagged.length) :
    ((accumulate tagged au gaz st).samples.map Prod.snd)[st.samples.length + p]? =
      some (((tagged.getD (min (p + st.window_width) (tagged.length - 1))
        default).fe).getD "O") := by
  rw [accumulate_samples, List.map_append, emitted_map_snd,
    List.getElem?_append_right (by simp)]
  simp only [List.length_map]
  have hidx : st.samples.length + p - st.samples.length = p := by omega
  rw [hidx, List.getElem?_map, List.getElem?_range hp]
  simp only [Option.map_some']
  unfold labelAt
  have harith : min (p + st.window_width + 1) tagged.length - 1 =
      min (p + st.window_width) (tagged.length - 1) := by omega
  rw [harith]

/-- Witness for C1 on a concrete run: window width 1, two tokens, sample
at position 0 labeled from the right window edge (index 1). -/
theorem claim_C1_witness :
    ((accumulate [⟨"a", "N", "a", none⟩, ⟨"b", "N", "b", some "X"⟩] false []
        (init "en" 1 true)).samples.map Prod.snd)[(init "en" 1 true).samples.length + 0]? =
      some "X" := by
  have h := claim_C1 (init "en" 1 true)
    [⟨"a", "N", "a", none⟩, ⟨"b", "N", "b", some "X"⟩] false [] 0 (by decide)
  simpa using h

/-- C2 counterexample: with accept-unknown off and an empty vocabulary, a
gazetteer value is written into the sample verbatim, although it is not a
vocabulary member and differs from the unknown sentinel. -/
theorem claim_C2_counterexample :
    process_sentence (init "en" 2 true) [⟨"a", "N", "a", none⟩] [] false
        [("a", ["GVAL"])] =
      .ok (accumulate [⟨"a", "N", "a", none⟩] false [("a", ["GVAL"])] (init "en" 2 true)) ∧
    ∃ s ∈ (accumulate [⟨"a", "N", "a", none⟩] false [("a", ["GVAL"])]
        (init "en" 2 true)).samples,
      ∃ kv ∈ s.1,
        kv.2 ∉ (accumulate [⟨"a", "N", "a", none⟩] false [("a", ["GVAL"])]
          (init "en" 2 true)).vocabulary ∧
        kv.2 ≠ (init "en" 2 true).unk_feature := by
  decide

/-- C2 as amended: when accept-unknown mode is off, the vocabulary is
unchanged and every feature value of every accumulated sample is a
vocabulary member or the unknown sentinel — except the gazetteer-derived
`GAZ` features, which bypass the vocabulary policy. -/
theorem claim_C2_amended (st : ExtractorState) (tagged : List Token)
    (gaz : List (String × List String))
    (hold : ∀ s ∈ st.samples, SampleOK st.vocabulary st.unk_feature s.1) :
    (accumulate tagged false gaz st).vocabulary = st.vocabulary ∧
    ∀ s ∈ (accumulate tagged false gaz st).samples,
      SampleOK st.vocabulary st.unk_feature s.1 := by
  refine ⟨foldl_posStep_false_vocab tagged gaz _ st, ?_⟩
  intro s hs
  rw [accumulate_samples] at hs
  rcases List.mem_append.mp hs with h | h
  · exact hold s h
  · obtain ⟨p, _, rfl⟩ := emitted_false_mem gaz tagged st.unk_feature st.window_width _
      st.vocabulary s h
    exact buildSample_false_sampleOK st.unk_feature gaz tagged st.window_width p
      st.vocabulary

/-- Witness for C2's amended claim on a concrete run. -/
theorem claim_C2_amended_witness :
    (accumulate [⟨"a", "N", "a", none⟩] false [("a", ["GVAL"])]
        (init "en" 2 true)).vocabulary = (init "en" 2 true).vocabulary ∧
    ∀ s ∈ (accumulate [⟨"a", "N", "a", none⟩] false [("a", ["GVAL"])]
        (init "en" 2 true)).samples,
      SampleOK (init "en" 2 true).vocabulary (init "en" 2 true).unk_feature s.1 :=
  claim_C2_amended (init "en" 2 true) [⟨"a", "N", "a", none⟩] [("a", ["GVAL"])]
    (by simp [init])

/-- C3: the naive scan resets its comparison index and advances on a
mid-match mismatch, so there is a sentence token sequence and a chunk
whose tokens do occur contiguously (case-insensitively) — with the
chunk's first token recurring inside an already-partially-matched span —
for which the scan reports no match and alignment drops the FE entirely. -/
theorem claim_C3 :
    ∃ (tagged : List Token) (fe chunk : String) (ctoks : List String) (collapse : Bool),
      ctoks ≠ [] ∧
      (∃ s < tagged.length + 1, chunkOccursAt tagged ctoks s) ∧
      PartialMatchRecurs tagged ctoks ∧
      scanLoop tagged ctoks 0 0 = none ∧
      sentence_to_tokens collapse tagged [(fe, some (chunk, ctoks))] = .ok tagged ∧
      ∀ t ∈ tagged, t.fe = none := by
  refine ⟨[⟨"a", "P", "a", none⟩, ⟨"a", "P", "a", none⟩, ⟨"a", "P", "a", none⟩,
    ⟨"b", "P", "b", none⟩], "F", "a a b", ["a", "a", "b"], true, ?_⟩
  decide

/-- C4 counterexample: in split mode, two FE chunks that both match and
overlap make `sentence_to_tokens` raise the tuple-unpacking error instead
of letting the later FE overwrite the earlier relabeling. -/
theorem claim_C4_counterexample :
    scanLoop [⟨"a", "P1", "a", none⟩, ⟨"b", "P2", "b", none⟩, ⟨"c", "P3", "c", none⟩]
        ["a", "b"] 0 0 = some 1 ∧
    scanLoop [⟨"a", "P1", "a", none⟩, ⟨"b", "P2", "b", none⟩, ⟨"c", "P3", "c", none⟩]
        ["b", "c"] 0 0 = some 2 ∧
    sentence_to_tokens false
        [⟨"a", "P1", "a", none⟩, ⟨"b", "P2", "b", none⟩, ⟨"c", "P3", "c", none⟩]
        [("F1", some ("a b", ["a", "b"])), ("F2", some ("b c", ["b", "c"]))] =
      .error "too many values to unpack" := by
  decide

/-- C4 as amended: FE chunks are processed independently in map iteration
order; in collapse mode a later match replaces the whole matched span
(overwriting any earlier relabeling inside it), while in split mode a
later match whose span contains an already-labeled token raises the
tuple-unpacking error instead of overwriting. -/
theorem claim_C4_amended :
    (∀ (tagged : List Token) (fe chunk : String) (ctoks : List String) (i : Nat),
      scanLoop tagged ctoks 0 0 = some i →
      (∃ k, i + 1 - ctoks.length ≤ k ∧ k < i + 1 - ctoks.length + ctoks.length ∧
        ((tagged.getD k default).fe).isSome) →
      ∃ e, applyFE false tagged fe chunk ctoks = .error e) ∧
    (∀ (tagged : List Token) (fe chunk : String) (ctoks : List String) (i : Nat),
      scanLoop tagged ctoks 0 0 = some i →
      applyFE true tagged fe chunk ctoks =
        .ok (tagged.take (i + 1 - ctoks.length) ++
          [⟨chunk,
            if ctoks.length > 1 then "ENT"
            else (tagged.getD (i + 1 - ctoks.length) default).pos,
            chunk, some fe⟩] ++
          tagged.drop (i + 1 - ctoks.length + ctoks.length))) := by
  constructor
  · intro tagged fe chunk ctoks i hscan hex
    unfold applyFE
    rw [hscan]
    exact splitRelabel_error fe ctoks.length (i + 1 - ctoks.length) tagged hex
  · intro tagged fe chunk ctoks i hscan
    unfold applyFE
    rw [hscan]
    rfl

/-- Witness for C4's amended claim: a concrete split-mode overlap errors,
and a concrete collapse-mode match replaces the span. -/
theorem claim_C4_amended_witness :
    (∃ e, applyFE false
        [⟨"a", "P1", "a", some "F1"⟩, ⟨"b", "P2", "ENT", some "F1"⟩,
          ⟨"c", "P3", "c", none⟩] "F2" "b c" ["b", "c"] = .error e) ∧
    applyFE true [⟨"a", "P1", "a", none⟩, ⟨"b", "P2", "b", none⟩] "F" "a b" ["a", "b"] =
      .ok [⟨"a b", "ENT", "a b", some "F"⟩] := by
  constructor
  · exact claim_C4_amended.1
      [⟨"a", "P1", "a", some "F1"⟩, ⟨"b", "P2", "ENT", some "F1"⟩, ⟨"c", "P3", "c", none⟩]
      "F2" "b c" ["b", "c"] 2 (by decide) ⟨1, by decide, by decide, by decide⟩
  · have h := claim_C4_amended.2 [⟨"a", "P1", "a", none⟩, ⟨"b", "P2", "b", none⟩]
      "F" "a b" ["a", "b"] 1 (by decide)
    simpa using h

/-- C5: in collapse mode a matched FE chunk replaces the whole matched
span with the single synthetic token `(chunk, pos, chunk, fe)`, where
`pos` is `'ENT'` for a multi-token chunk and the matched token's own POS
tag for a single-token chunk; tokens before and after are unchanged. -/
theorem claim_C5 (tagged : List Token) (fe chunk : String) (ctoks : List String)
    (i : Nat) (hne : ctoks ≠ []) (hscan : scanLoop tagged ctoks 0 0 = some i) :
    sentence_to_tokens true tagged [(fe, some (chunk, ctoks))] =
      .ok (tagged.take (i + 1 - ctoks.length) ++
        [⟨chunk,
          if ctoks.length > 1 then "ENT"
          else (tagged.getD (i + 1 - ctoks.length) default).pos,
          chunk, some fe⟩] ++
        tagged.drop (i + 1 - ctoks.length + ctoks.length)) := by
  unfold sentence_to_tokens
  rw [List.foldlM_cons]
  have hempty : ctoks.isEmpty = false := by
    cases ctoks with
    | nil => exact absurd rfl hne
    | cons a l => rfl
  simp only [hempty, if_false]
  unfold applyFE
  rw [hscan]
  rfl

/-- Witness for C5: the chunk `John Smith` inside a four-token sentence
collapses to one `ENT` token between the unchanged neighbours. -/
theorem claim_C5_witness :
    sentence_to_tokens true
        [⟨"x", "P0", "x", none⟩, ⟨"John", "NP", "john", none⟩,
          ⟨"Smith", "NP", "smith", none⟩, ⟨"y", "P3", "y", none⟩]
        [("Per", some ("John Smith", ["John", "Smith"]))] =
      .ok [⟨"x", "P0", "x", none⟩, ⟨"John Smith", "ENT", "John Smith", some "Per"⟩,
        ⟨"y", "P3", "y", none⟩] := by
  have h := claim_C5
    [⟨"x", "P0", "x", none⟩, ⟨"John", "NP", "john", none⟩,
      ⟨"Smith", "NP", "smith", none⟩, ⟨"y", "P3", "y", none⟩]
    "Per" "John Smith" ["John", "Smith"] 2 (by decide) (by decide)
  simpa using h

/-- C6: for every sentence and every FE map whose entries are all null or
tokenize to nothing, alignment returns exactly the tagger's raw token
sequence, and (the tagger emitting plain triples) no token carries an fe
label. -/
theorem claim_C6 (collapse : Bool) (tagged : List Token) (fes : List FEEntry)
    (hraw : ∀ t ∈ tagged, t.fe = none)
    (hfes : ∀ e ∈ fes, e.2.elim True (fun ce => ce.2 = [])) :
    sentence_to_tokens collapse tagged fes = .ok tagged ∧
    ∀ t ∈ tagged, t.fe = none :=
  ⟨sentence_to_tokens_null collapse fes tagged hfes, hraw⟩

/-- Witness for C6: a null entry and an empty-tokenization entry leave a
concrete two-token sentence untouched. -/
theorem claim_C6_witness :
    sentence_to_tokens true [⟨"a", "N", "a", none⟩, ⟨"b", "V", "b", none⟩]
        [("F1", none), ("F2", some ("", []))] =
      .ok [⟨"a", "N", "a", none⟩, ⟨"b", "V", "b", none⟩] ∧
    ∀ t ∈ [⟨"a", "N", "a", none⟩, ⟨"b", "V", "b", none⟩], Token.fe t = none :=
  claim_C6 true [⟨"a", "N", "a", none⟩, ⟨"b", "V", "b", none⟩]
    [("F1", none), ("F2", some ("", []))] (by decide) (by simp)

/-- C7: every sample emitted by `process_sentence` contains the sentinel
feature `'unk'` with the unknown-sentinel value, for every window width,
gazetteer and accept-unknown mode; no later feature write removes it. -/
theorem claim_C7 (st : ExtractorState) (tagged : List Token) (au : Bool)
    (gaz : List (String × List String)) :
    ∀ s ∈ (accumulate tagged au gaz st).samples,
      s ∈ st.samples ∨ dget s.1 "unk" = some st.unk_feature := by
  intro s hs
  rw [accumulate_samples] at hs
  rcases List.mem_append.mp hs with h | h
  · exact Or.inl h
  · right
    obtain ⟨p, v, _, rfl⟩ := emitted_mem au gaz tagged st.unk_feature st.window_width _
      st.vocabulary s h
    exact dget_buildSample_unk st.unk_feature au gaz tagged st.window_width p v

/-- Witness for C7 on a concrete run: the one sample produced for a
one-token sentence carries the sentinel feature. -/
theorem claim_C7_witness :
    ([("unk", "UNK"), ("TERM+0", "a"), ("POS+0", "N"), ("LEMMA+0", "a")], "O") ∈
        (init "en" 2 true).samples ∨
      dget [("unk", "UNK"), ("TERM+0", "a"), ("POS+0", "N"), ("LEMMA+0", "a")] "unk" =
        some (init "en" 2 true).unk_feature :=
  claim_C7 (init "en" 2 true) [⟨"a", "N", "a", none⟩] true []
    ([("unk", "UNK"), ("TERM+0", "a"), ("POS+0", "N"), ("LEMMA+0", "a")], "O")
    (by decide)

/-- C8: the matrix finalizer fails on an empty accumulator (the unpacking
of `zip(*self.samples)` has nothing to unpack) instead of returning an
empty matrix. -/
theorem claim_C8 (st : ExtractorState) (h : st.samples = []) :
    get_features st = .error "insufficient data" := by
  unfold get_features
  rw [h]

/-- Witness for C8: a freshly initialized extractor. -/
theorem claim_C8_witness : get_features (init "en" 2 true) = .error "insufficient data" :=
  claim_C8 (init "en" 2 true) rfl

/-- C9: restoring an extractor from its saved state reproduces exactly the
seven persisted fields. -/
theorem claim_C9 (st : ExtractorState) : setstate (getstate st) = st := by
  cases st
  rfl

/-- C10: gazetteer-derived features bypass the vocabulary policy — the
vocabulary after `process_sentence` is independent of the gazetteer, and
whenever a window token's surface is a gazetteer key the `GAZ` feature at
that offset is set verbatim to the last value of the key's list. -/
theorem claim_C10 :
    (∀ (st : ExtractorState) (tagged : List Token) (fes : List FEEntry) (au : Bool)
        (g₁ g₂ : List (String × List String)),
      (process_sentence st tagged fes au g₁).map ExtractorState.vocabulary =
        (process_sentence st tagged fes au g₂).map ExtractorState.vocabulary) ∧
    (∀ (unk : String) (au : Bool) (gaz : List (String × List String))
        (tagged : List Token) (w p : Nat) (vocab : List String) (i : Nat)
        (fl : List String) (hl : fl ≠ []),
      i ∈ windowIdxs w tagged.length p →
      gaz.lookup (tagged.getD i default).surface = some fl →
      dget (buildSample unk au gaz tagged w p vocab).1
        (featName "GAZ" ((i : Int) - (p : Int))) = some (fl.getLast hl)) := by
  constructor
  · intro st tagged fes au g₁ g₂
    unfold process_sentence
    cases sentence_to_tokens st.collapse_fes tagged fes with
    | error e => rfl
    | ok aligned =>
      simp only [Except.map]
      exact congrArg Except.ok
        (accumulate_vocab_congr aligned au g₁ g₂ _ st st rfl rfl rfl)
  · intro unk au gaz tagged w p vocab i fl hl hi hg
    exact dget_buildSample_gaz unk au gaz tagged w p vocab i fl hl hi hg

/-- Witness for C10: a concrete run where the vocabulary ignores the
gazetteer and the `GAZ+0` feature holds the last listed value. -/
theorem claim_C10_witness :
    (process_sentence (init "en" 2 true) [⟨"a", "N", "a", none⟩] [] true
        [("a", ["g1", "g2"])]).map ExtractorState.vocabulary =
      (process_sentence (init "en" 2 true) [⟨"a", "N", "a", none⟩] [] true []).map
        ExtractorState.vocabulary ∧
    dget (buildSample "UNK" true [("a", ["g1", "g2"])] [⟨"a", "N", "a", none⟩] 2 0 []).1
        (featName "GAZ" ((0 : Int) - (0 : Int))) = some "g2" := by
  constructor
  · exact claim_C10.1 (init "en" 2 true) [⟨"a", "N", "a", none⟩] [] true
      [("a", ["g1", "g2"])] []
  · have h := claim_C10.2 "UNK" true [("a", ["g1", "g2"])] [⟨"a", "N", "a", none⟩] 2 0 []
      0 ["g1", "g2"] (by decide) (by decide) (by decide)
    simpa using h

end StrepHit
